import Mathlib

/-!
Verification of the DNS wire-format codec of `effect-dns-resolver`
(`src/name.ts`, the message framer, and their collaborators).

Buffers (`Uint8Array` values) are modelled as `List Nat`; every function is a
direct transcription of the corresponding TypeScript decode/encode routine,
with the effect-monad error channel rendered as `Except DecodeError`.
-/

/-- Error kinds produced by the codec, one per distinct failure site of the
source (the source raises `ParseResult.Type` issues whose messages distinguish
exactly these cases; the spec's §7 taxonomy uses the same names). -/
inductive DecodeError where
  | bufferUnderrun
  | bufferTooShort
  | invalidLabel
  | invalidName
  | nameTooLong
  | labelOverrun
  | recursivePointer
  | emptyName
  deriving DecidableEq, Repr

/-- Modelled from the spec: `utils.ts` (absent from the sources) exposes a
bounds-checked single-byte read over a DataView; reading past the end fails
with a buffer-underrun error (spec §4.3). -/
def getUint8 (buf : List Nat) (off : Nat) : Except DecodeError Nat :=
  match buf.get? off with
  | some b => .ok b
  | none => .error .bufferUnderrun

/-- Modelled from the spec: `utils.ts` bounds-checked big-endian 16-bit read
(spec §4.3, "bounds-checked primitive reads (u8, u16 big-endian)"). -/
def getUint16 (buf : List Nat) (off : Nat) : Except DecodeError Nat :=
  match buf.get? off, buf.get? (off + 1) with
  | some hi, some lo => .ok (hi * 256 + lo)
  | _, _ => .error .bufferUnderrun

/-- Character classes admitted by the `LabelCharacter` schema union of
`name.ts`: digits 48–57, uppercase 65–90, lowercase 97–122, hyphen 45. -/
def isValidLabelCharacter (b : Nat) : Bool :=
  (48 ≤ b && b ≤ 57) || (65 ≤ b && b ≤ 90) || (97 ≤ b && b ≤ 122) || b == 45

/-- The `Label` schema filter of `name.ts` (lines 67–120): length 1–63, every
byte in the admitted classes, no leading or trailing hyphen, and the RFC 5891
rule that hyphens in the 3rd and 4th positions (indices 2 and 3) force the
label to start with the ACE prefix bytes 120 ('x') and 110 ('n'). -/
def labelOk (bytes : List Nat) : Bool :=
  !(bytes.length == 0) && !(bytes.length > 63) &&
    (List.range bytes.length).all (fun idx =>
      let b := bytes.getD idx 0
      isValidLabelCharacter b &&
      !(idx == 0 && b == 45) &&
      !(idx == bytes.length - 1 && b == 45) &&
      !(bytes.getD (idx - 1) 0 == 45 && b == 45 && idx == 3 &&
        !(bytes.getD 0 0 == 120 && bytes.getD 1 0 == 110)))

/-- `decodeLabel` of `name.ts`: run the `Label` schema filter on the bytes. -/
def decodeLabel (bytes : List Nat) : Except DecodeError (List Nat) :=
  if labelOk bytes then .ok bytes else .error .invalidLabel

/-- The `Name` struct of `name.ts` (lines 127–144): an ordered label list plus
the number of bytes its decoding consumed. -/
structure Name where
  labels : List (List Nat)
  encodedByteLength : Nat
  deriving DecidableEq, Repr

/-- Sum of the byte lengths of a list of labels. -/
def sumLens (ls : List (List Nat)) : Nat :=
  ls.foldr (fun l acc => l.length + acc) 0

/-- The filter on the `labels` field of the `Name` schema: each element must
satisfy the `Label` filter, and with `bytes = labels.length + sum of lengths`,
the source rejects when `bytes === 0 || ++bytes > 255`. -/
def nameLabelsOk (ls : List (List Nat)) : Bool :=
  ls.all (fun l => labelOk l) &&
    (let bytes := ls.length + sumLens ls
     !(bytes == 0) && bytes + 1 ≤ 255)

/-- The whole `Name` schema validation: the labels filter plus
`encodedByteLength` between 1 and 255. -/
def validName (nm : Name) : Bool :=
  nameLabelsOk nm.labels &&
    (1 ≤ nm.encodedByteLength && nm.encodedByteLength ≤ 255)

/-- The decode loop of `NameFromUint8Array` (`name.ts` lines 173–213): read a
length byte; zero terminates reporting the current offset; otherwise check the
label fits the buffer, validate it, accumulate the running name size failing
above 255, and advance past the label.  The explicit fuel keeps the recursion
structural; `none` reports fuel exhaustion and `nameDecodeLoop_isSome` below
proves the fuel used by `decodeNameRaw` never runs out, so the fuel is an
artifact of the embedding, not of the source loop. -/
def nameDecodeLoop (buf : List Nat) : Nat → Nat → Nat → List (List Nat) →
    Option (Except DecodeError (List (List Nat) × Nat))
  | 0, _, _, _ => none
  | fuel + 1, offset, nameSize, labels =>
    match buf.get? offset with
    | none => some (.error .bufferUnderrun)
    | some length =>
      if length = 0 then some (.ok (labels, offset))
      else if offset + 1 + length > buf.length then some (.error .labelOverrun)
      else if labelOk ((buf.drop (offset + 1)).take length) then
        if nameSize + ((buf.drop (offset + 1)).take length).length > 255 then
          some (.error .nameTooLong)
        else nameDecodeLoop buf fuel (offset + length + 1)
          (nameSize + ((buf.drop (offset + 1)).take length).length)
          (labels ++ [(buf.drop (offset + 1)).take length])
      else some (.error .invalidLabel)

/-- The decode direction of the `NameFromUint8Array` transformation before the
target-schema validation: buffers shorter than 2 bytes are rejected, then the
loop runs from offset 0. -/
def decodeNameRaw (buf : List Nat) : Except DecodeError Name :=
  if buf.length < 2 then .error .bufferTooShort
  else
    match nameDecodeLoop buf (buf.length + 1) 0 0 [] with
    | none => .error .bufferUnderrun
    | some r => r.map (fun p => ⟨p.1, p.2⟩)

/-- The fuel supplied by `decodeNameRaw` suffices: the loop's offset advances
by at least two per iteration and stays within the buffer, so it always
reaches a definite answer. -/
theorem nameDecodeLoop_isSome (buf : List Nat) :
    ∀ fuel offset nameSize labels, buf.length + 1 ≤ fuel + offset → 1 ≤ fuel →
      (nameDecodeLoop buf fuel offset nameSize labels).isSome := by
  intro fuel
  induction fuel with
  | zero => intro _ _ _ _ h2; exact absurd h2 (by omega)
  | succ n ih =>
    intro offset nameSize labels hlen _
    rw [nameDecodeLoop]
    split
    · rfl
    next length hb =>
      split
      · rfl
      next hz =>
        split
        · rfl
        next hov =>
          split
          next hlb =>
            split
            · rfl
            next hsz => exact ih _ _ _ (by omega) (by omega)
          next hlb => rfl

/-- `decodeNameFromUint8Array`: the raw transformation followed by the `Name`
target-schema validation (a `Schema.transformOrFail` validates its output
against the target schema's filters). -/
def decodeNameFromUint8Array (buf : List Nat) : Except DecodeError Name :=
  match decodeNameRaw buf with
  | .ok nm => if validName nm then .ok nm else .error .invalidName
  | .error e => .error e

/-- Wire form of a label list as written by the encode loop of `name.ts`
(lines 257–266): for each label one length byte then the label bytes, then a
single zero terminator. -/
def nameWire : List (List Nat) → List Nat
  | [] => [0]
  | l :: ls => (l.length :: l) ++ nameWire ls

/-- The validation/size pass of the encode direction (`name.ts` lines
233–251): re-validate each label and accumulate `nameSize`, failing above
255; returns the final size. -/
def encodeSizeLoop : List (List Nat) → Nat → Except DecodeError Nat
  | [], size => .ok size
  | l :: ls, size =>
    if labelOk l then
      if size + l.length > 255 then .error .nameTooLong
      else encodeSizeLoop ls (size + l.length)
    else .error .invalidLabel

/-- `encodeNameFromUint8Array`: `Schema.encode` first validates the input
against the `Name` schema, then the encode direction rejects empty label
lists, runs the size pass seeded with `labels.length + 1` (length bytes plus
terminator) and emits the literal wire form. -/
def encodeNameFromUint8Array (nm : Name) : Except DecodeError (List Nat) :=
  if validName nm then
    if nm.labels.length = 0 then .error .emptyName
    else
      match encodeSizeLoop nm.labels (nm.labels.length + 1) with
      | .ok _ => .ok (nameWire nm.labels)
      | .error e => .error e
  else .error .invalidName

/-- `DnsPacketCursor` (declared in the absent `types.ts`, used throughout
`name.ts` and the framer; spec §3: the full immutable packet buffer plus a
mutable byte offset). -/
structure DnsPacketCursor where
  uint8Array : List Nat
  offset : Nat
  deriving DecidableEq, Repr

/-- `byteIsPointer` of `name.ts` (line 430): top two bits are `11`. -/
def byteIsPointer (byte : Nat) : Bool :=
  byte &&& 0xc0 == 0xc0

/-- `getPointerOffset` of `name.ts` (line 434): mask the top two bits off the
16-bit value to obtain a 14-bit offset. -/
def getPointerOffset (uint16 : Nat) : Nat :=
  uint16 &&& 0x3fff

/-- The decode loop of `NameFromDnsPacketCursor` (`name.ts` lines 324–410),
with an explicit fuel so the function is structurally total; `none` reports
fuel exhaustion (proved unreachable below).  The state mirrors the source:
`offset` is the read position into the active DataView, which is the 255-byte
window before a pointer has been followed and the whole packet afterwards
(line 363 rebinds the DataView); label bytes however are always sliced out of
the original window `uint8Array` variable (line 390) — the windowing defect
the source's own comment at lines 308–311 documents. -/
def cursorNameLoop (packet window : List Nat) : Nat → Nat → Nat → Nat →
    List (List Nat) → Bool → Option (Except DecodeError (List (List Nat) × Nat))
  | 0, _, _, _, _, _ => none
  | fuel + 1, offset, nameSize, bytesConsumed, labels, encounteredPointer =>
    match (if encounteredPointer then packet else window).get? offset with
    | none => some (.error .bufferUnderrun)
    | some byte =>
      if byteIsPointer byte then
        if encounteredPointer then some (.error .recursivePointer)
        else
          match getUint16 (if encounteredPointer then packet else window) offset with
          | .error e => some (.error e)
          | .ok u16 =>
            cursorNameLoop packet window fuel (getPointerOffset u16) nameSize
              (bytesConsumed + 2) labels true
      else
        if byte = 0 then some (.ok (labels, bytesConsumed))
        else if offset + 1 + byte >
            (if encounteredPointer then packet else window).length then
          some (.error .labelOverrun)
        else if labelOk ((window.drop (offset + 1)).take byte) then
          if nameSize + ((window.drop (offset + 1)).take byte).length > 255 then
            some (.error .nameTooLong)
          else
            cursorNameLoop packet window fuel (offset + byte + 1)
              (nameSize + ((window.drop (offset + 1)).take byte).length)
              (if encounteredPointer then bytesConsumed else offset + byte + 1)
              (labels ++ [(window.drop (offset + 1)).take byte])
              encounteredPointer
        else some (.error .invalidLabel)

/-- The 255-byte working window `uint8Array` taken at entry of the cursor
decoder (`name.ts` line 289): `subarray(cursor.offset, cursor.offset + 255)`. -/
def cursorWindow (cursor : DnsPacketCursor) : List Nat :=
  (cursor.uint8Array.drop cursor.offset).take 255

/-- Fuel that theorem `C8` proves sufficient for every input. -/
def cursorNameFuel (cursor : DnsPacketCursor) : Nat :=
  (cursorWindow cursor).length + cursor.uint8Array.length + 4

/-- The decode direction of `NameFromDnsPacketCursor` before target-schema
validation: reject windows shorter than 2 bytes, then run the loop from local
offset 0 with no pointer followed yet. -/
def decodeNameCursorRaw (cursor : DnsPacketCursor) : Except DecodeError Name :=
  if (cursorWindow cursor).length < 2 then .error .bufferTooShort
  else
    match cursorNameLoop cursor.uint8Array (cursorWindow cursor)
        (cursorNameFuel cursor) 0 0 0 [] false with
    | none => .error .bufferUnderrun
    | some r => r.map (fun p => ⟨p.1, p.2⟩)

/-- `decodeNameFromDnsPacketCursor`: the raw transformation followed by the
`Name` target-schema validation. -/
def decodeNameFromDnsPacketCursor (cursor : DnsPacketCursor) :
    Except DecodeError Name :=
  match decodeNameCursorRaw cursor with
  | .ok nm => if validName nm then .ok nm else .error .invalidName
  | .error e => .error e

/-- Modelled from the spec: `utils.ts` bounds-checked big-endian 32-bit read,
needed for the TTL field of a resource record. -/
def getUint32 (buf : List Nat) (off : Nat) : Except DecodeError Nat :=
  match getUint16 buf off, getUint16 buf (off + 2) with
  | .ok hi, .ok lo => .ok (hi * 65536 + lo)
  | _, _ => .error .bufferUnderrun

/-- Modelled from the spec: the fixed DNS header of `header.ts` (absent from
the sources; spec §4.4 step 1): 2-byte ID, 2 bytes of flags, and the four
16-bit counts, all big-endian, 12 bytes in total. -/
structure Header where
  id : Nat
  flags : Nat
  qdcount : Nat
  ancount : Nat
  nscount : Nat
  arcount : Nat
  deriving DecidableEq, Repr

/-- Modelled from the spec: `decodeHeaderFromUint8Array` of the absent
`header.ts` reads the six big-endian 16-bit header fields from a 12-byte
buffer, failing on a shorter one. -/
def decodeHeaderFromUint8Array (buf : List Nat) : Except DecodeError Header :=
  match getUint16 buf 0, getUint16 buf 2, getUint16 buf 4, getUint16 buf 6,
      getUint16 buf 8, getUint16 buf 10 with
  | .ok i, .ok f, .ok qd, .ok an, .ok ns, .ok ar => .ok ⟨i, f, qd, an, ns, ar⟩
  | _, _, _, _, _, _ => .error .bufferUnderrun

/-- A question entry: Name plus QTYPE and QCLASS (spec §4.4 step 2). -/
structure Question where
  name : Name
  qtype : Nat
  qclass : Nat
  deriving DecidableEq, Repr

/-- Modelled from the spec: `decodeQuestionFromDnsPacketCursor` of the absent
`question.ts` decodes a Name with the packet-aware Name codec, then QTYPE and
QCLASS as big-endian 16-bit reads following the name's terminator byte, and
reports `encodedByteLength = name.encodedByteLength + 4` (the name codec's
consumed length, which stops at the terminator, plus the two fixed fields). -/
def decodeQuestionFromDnsPacketCursor (cursor : DnsPacketCursor) :
    Except DecodeError (Question × Nat) :=
  match decodeNameFromDnsPacketCursor cursor with
  | .error e => .error e
  | .ok nm =>
    let base := cursor.offset + nm.encodedByteLength + 1
    match getUint16 cursor.uint8Array base,
        getUint16 cursor.uint8Array (base + 2) with
    | .ok qtype, .ok qclass =>
      .ok (⟨nm, qtype, qclass⟩, nm.encodedByteLength + 4)
    | _, _ => .error .bufferUnderrun

/-- A resource record envelope: owner name, type, class, TTL, and the raw
RDATA bytes (spec §3, §4.4 step 3). -/
structure ResourceRecord where
  name : Name
  rtype : Nat
  rclass : Nat
  ttl : Nat
  rdata : List Nat
  deriving DecidableEq, Repr

/-- Modelled from the spec: `decodeResourceRecordFromDnsPacketCursor` of the
absent `resource-record.ts` decodes the owner name, then TYPE, CLASS, TTL and
RDLENGTH, then RDLENGTH bytes of RDATA, reporting
`encodedByteLength = name.encodedByteLength + 10 + rdlength`. -/
def decodeResourceRecordFromDnsPacketCursor (cursor : DnsPacketCursor) :
    Except DecodeError (ResourceRecord × Nat) :=
  match decodeNameFromDnsPacketCursor cursor with
  | .error e => .error e
  | .ok nm =>
    let base := cursor.offset + nm.encodedByteLength + 1
    match getUint16 cursor.uint8Array base, getUint16 cursor.uint8Array (base + 2),
        getUint32 cursor.uint8Array (base + 4),
        getUint16 cursor.uint8Array (base + 8) with
    | .ok rtype, .ok rclass, .ok ttl, .ok rdlength =>
      if base + 10 + rdlength > cursor.uint8Array.length then
        .error .bufferUnderrun
      else
        .ok (⟨nm, rtype, rclass, ttl,
              (cursor.uint8Array.drop (base + 10)).take rdlength⟩,
             nm.encodedByteLength + 10 + rdlength)
    | _, _, _, _ => .error .bufferUnderrun

/-- A decoded DNS message (the `Message` struct of the framer source). -/
structure Message where
  header : Header
  question : List Question
  answer : List ResourceRecord
  authority : List ResourceRecord
  additional : List ResourceRecord
  deriving DecidableEq, Repr

/-- The question loop of `MessageFromUint8Array` (framer source lines 52–62):
for each iteration decode one question at the shared cursor, then advance the
cursor offset by `encodedByteLength + 1`.  The final cursor offset is
returned alongside the accumulated questions (the cursor is threaded state in
the source). -/
def decodeQuestions (packet : List Nat) :
    Nat → Nat → Except DecodeError (List Question × Nat)
  | 0, offset => .ok ([], offset)
  | n + 1, offset =>
    match decodeQuestionFromDnsPacketCursor ⟨packet, offset⟩ with
    | .error e => .error e
    | .ok (q, encodedByteLength) =>
      match decodeQuestions packet n (offset + encodedByteLength + 1) with
      | .error e => .error e
      | .ok (qs, final) => .ok (q :: qs, final)

/-- The three resource-record loops of `MessageFromUint8Array` (framer source
lines 66–99) share this shape: decode one record, then advance the cursor
offset by `encodedByteLength + 1`. -/
def decodeResourceRecords (packet : List Nat) :
    Nat → Nat → Except DecodeError (List ResourceRecord × Nat)
  | 0, offset => .ok ([], offset)
  | n + 1, offset =>
    match decodeResourceRecordFromDnsPacketCursor ⟨packet, offset⟩ with
    | .error e => .error e
    | .ok (rr, encodedByteLength) =>
      match decodeResourceRecords packet n (offset + encodedByteLength + 1) with
      | .error e => .error e
      | .ok (rrs, final) => .ok (rr :: rrs, final)

/-- `MessageFromUint8Array` (the framer source): decode the 12-byte header
from `subarray(0, 12)`, advance the cursor past it, then run the question
loop and the three resource-record loops in order and assemble the message. -/
def MessageFromUint8Array (buf : List Nat) : Except DecodeError Message :=
  match decodeHeaderFromUint8Array (buf.take 12) with
  | .error e => .error e
  | .ok header =>
    match decodeQuestions buf header.qdcount 12 with
    | .error e => .error e
    | .ok (questions, off1) =>
      match decodeResourceRecords buf header.ancount off1 with
      | .error e => .error e
      | .ok (answers, off2) =>
        match decodeResourceRecords buf header.nscount off2 with
        | .error e => .error e
        | .ok (authority, off3) =>
          match decodeResourceRecords buf header.arcount off3 with
          | .error e => .error e
          | .ok (additional, _) =>
            .ok ⟨header, questions, answers, authority, additional⟩

theorem labelOk_length {l : List Nat} (h : labelOk l = true) :
    1 ≤ l.length ∧ l.length ≤ 63 := by
  unfold labelOk at h
  simp only [Bool.and_eq_true, Bool.not_eq_true', beq_eq_false_iff_ne, ne_eq,
    decide_eq_false_iff_not, not_lt] at h
  omega

theorem validName_parts {nm : Name} (h : validName nm = true) :
    (∀ l ∈ nm.labels, labelOk l = true) ∧ nm.labels ≠ [] ∧
    nm.labels.length + sumLens nm.labels + 1 ≤ 255 ∧
    1 ≤ nm.encodedByteLength ∧ nm.encodedByteLength ≤ 255 := by
  unfold validName nameLabelsOk at h
  simp only [Bool.and_eq_true, Bool.not_eq_true', beq_eq_false_iff_ne, ne_eq,
    decide_eq_true_eq, List.all_eq_true] at h
  obtain ⟨⟨hall, hne, hsz⟩, h1, h2⟩ := h
  refine ⟨hall, ?_, by omega, h1, h2⟩
  intro hempty
  rw [hempty] at hne
  simp [sumLens] at hne

theorem validate_step {r : Except DecodeError Name} {nm : Name}
    (h : (match r with
        | .ok nm0 =>
          if validName nm0 then Except.ok nm0
          else Except.error DecodeError.invalidName
        | .error e => Except.error e) = .ok nm) : validName nm = true := by
  cases r with
  | ok nm0 =>
    simp only at h
    by_cases hv : validName nm0 = true
    · rw [if_pos hv] at h
      cases h
      exact hv
    · rw [if_neg hv] at h
      cases h
  | error e => cases h

/-- Claim C5: during compressed-name decoding, a pointer byte met while a
pointer has already been followed fails with `RecursivePointer` (so at most
one indirection is ever followed); a two-pointer chain fails the full decode
the same way. -/
theorem recursive_pointer_guard :
    (∀ (packet window : List Nat) (fuel offset nameSize bytesConsumed : Nat)
        (labels : List (List Nat)) (byte : Nat),
      packet.get? offset = some byte → byteIsPointer byte = true →
      cursorNameLoop packet window (fuel + 1) offset nameSize bytesConsumed
          labels true = some (.error .recursivePointer)) ∧
    decodeNameFromDnsPacketCursor ⟨[192, 2, 192, 0], 0⟩ =
      .error .recursivePointer := by
  refine ⟨?_, rfl⟩
  intro packet window fuel offset nameSize bytesConsumed labels byte hb hp
  rw [cursorNameLoop]
  simp only [if_pos rfl, hb, hp, if_true]

/-- Witness for `recursive_pointer_guard` at a concrete loop state. -/
theorem recursive_pointer_guard_witness :
    cursorNameLoop [192, 0] [] 1 0 0 2 [] true =
      some (.error .recursivePointer) :=
  recursive_pointer_guard.1 [192, 0] [] 0 0 0 2 [] 192 rfl rfl

/-- Claim C7: the double-hyphen rule of label validation: `xn--abc` is
accepted, `ab--cd` is rejected with the invalid-label error, and any accepted
label with hyphens as its 3rd and 4th bytes starts with the bytes of
lowercase `x` then `n`. -/
theorem ace_prefix_rule :
    decodeLabel [120, 110, 45, 45, 97, 98, 99] =
      .ok [120, 110, 45, 45, 97, 98, 99] ∧
    decodeLabel [97, 98, 45, 45, 99, 100] = .error .invalidLabel ∧
    ∀ l : List Nat, labelOk l = true → 4 ≤ l.length →
      l.getD 2 0 = 45 → l.getD 3 0 = 45 →
      l.getD 0 0 = 120 ∧ l.getD 1 0 = 110 := by
  refine ⟨rfl, rfl, ?_⟩
  intro l h hlen h2 h3
  unfold labelOk at h
  simp only [Bool.and_eq_true, List.all_eq_true] at h
  have h4 := h.2 3 (List.mem_range.mpr (by omega))
  simp only [h2, h3] at h4
  revert h4
  simp

/-- Witness for `ace_prefix_rule` at the accepted ACE label. -/
theorem ace_prefix_rule_witness :
    ([120, 110, 45, 45, 97, 98, 99] : List Nat).getD 0 0 = 120 ∧
    ([120, 110, 45, 45, 97, 98, 99] : List Nat).getD 1 0 = 110 :=
  ace_prefix_rule.2.2 [120, 110, 45, 45, 97, 98, 99] (by decide) (by decide)
    (by decide) (by decide)

/-- Claim C9: every Name produced by a successful decode (standalone or
packet-aware) has at least one label and an `encodedByteLength` between 1 and
255, and a buffer whose first byte is the zero terminator fails to decode
rather than yielding the zero-label root name. -/
theorem name_decode_invariants :
    (∀ (buf : List Nat) (nm : Name), decodeNameFromUint8Array buf = .ok nm →
      nm.labels ≠ [] ∧ 1 ≤ nm.encodedByteLength ∧ nm.encodedByteLength ≤ 255) ∧
    (∀ (cursor : DnsPacketCursor) (nm : Name),
      decodeNameFromDnsPacketCursor cursor = .ok nm →
      nm.labels ≠ [] ∧ 1 ≤ nm.encodedByteLength ∧ nm.encodedByteLength ≤ 255) ∧
    (∀ buf : List Nat, buf.get? 0 = some 0 →
      ∀ nm : Name, decodeNameFromUint8Array buf ≠ .ok nm) := by
  refine ⟨?_, ?_, ?_⟩
  · intro buf nm h
    obtain ⟨-, hne, -, h1, h2⟩ :=
      validName_parts (validate_step (r := decodeNameRaw buf) h)
    exact ⟨hne, h1, h2⟩
  · intro cursor nm h
    obtain ⟨-, hne, -, h1, h2⟩ :=
      validName_parts (validate_step (r := decodeNameCursorRaw cursor) h)
    exact ⟨hne, h1, h2⟩
  · intro buf h0 nm hdec
    unfold decodeNameFromUint8Array at hdec
    by_cases hlen : buf.length < 2
    · unfold decodeNameRaw at hdec
      rw [if_pos hlen] at hdec
      cases hdec
    · have hraw : decodeNameRaw buf = .ok ⟨[], 0⟩ := by
        unfold decodeNameRaw
        rw [if_neg hlen]
        rw [nameDecodeLoop, h0]
        rfl
      rw [hraw] at hdec
      simp [validName] at hdec

/-- Witness for `name_decode_invariants` at a one-label decode. -/
theorem name_decode_invariants_witness :
    (⟨[[97]], 2⟩ : Name).labels ≠ [] ∧
    1 ≤ (⟨[[97]], 2⟩ : Name).encodedByteLength ∧
    (⟨[[97]], 2⟩ : Name).encodedByteLength ≤ 255 :=
  name_decode_invariants.1 [1, 97, 0] ⟨[[97]], 2⟩ rfl

/-- Claim C10: the standalone name decoder treats a length byte with its top
two bits set as a literal length: at any such byte it fails (overrun if the
192-or-more declared bytes do not fit, otherwise the 63-byte label bound is
violated) — it never follows the byte as a compression pointer. -/
theorem standalone_never_pointer :
    ∀ (buf : List Nat) (fuel offset nameSize : Nat) (labels : List (List Nat))
      (byte : Nat),
      buf.get? offset = some byte → byteIsPointer byte = true →
      nameDecodeLoop buf (fuel + 1) offset nameSize labels =
          some (.error .labelOverrun) ∨
        nameDecodeLoop buf (fuel + 1) offset nameSize labels =
          some (.error .invalidLabel) := by
  intro buf fuel offset nameSize labels byte hb hp
  have h1 : byte &&& 192 = 192 := by simpa [byteIsPointer] using hp
  have hbig : 192 ≤ byte := by
    calc 192 = byte &&& 192 := h1.symm
      _ ≤ byte := Nat.and_le_left
  by_cases hov : offset + 1 + byte > buf.length
  · left
    simp only [nameDecodeLoop, hb]
    rw [if_neg (show ¬byte = 0 by omega), if_pos hov]
  · right
    have hlb : labelOk ((buf.drop (offset + 1)).take byte) = false := by
      rw [Bool.eq_false_iff]
      intro hcontra
      have h63 := (labelOk_length hcontra).2
      rw [List.length_take, List.length_drop] at h63
      omega
    simp only [nameDecodeLoop, hb]
    rw [if_neg (show ¬byte = 0 by omega), if_neg hov, hlb]
    rfl

/-- Witness for `standalone_never_pointer` at a pointer-marker byte. -/
theorem standalone_never_pointer_witness :
    nameDecodeLoop [192, 0] 1 0 0 [] = some (.error .labelOverrun) ∨
      nameDecodeLoop [192, 0] 1 0 0 [] = some (.error .invalidLabel) :=
  standalone_never_pointer [192, 0] 0 0 0 [] 192 rfl rfl

/-- Claim C6: in both name decoders, the running name size is checked right
after each label is decoded: whenever the label at the current offset pushes
the accumulated size over 255, the loop stops with `NameTooLong` at once —
for any fuel and regardless of what the rest of the buffer holds. -/
theorem nametoolong_fail_fast :
    (∀ (buf : List Nat) (fuel offset nameSize : Nat) (labels : List (List Nat))
        (length : Nat),
      buf.get? offset = some length → length ≠ 0 →
      ¬offset + 1 + length > buf.length →
      labelOk ((buf.drop (offset + 1)).take length) = true →
      nameSize + ((buf.drop (offset + 1)).take length).length > 255 →
      nameDecodeLoop buf (fuel + 1) offset nameSize labels =
        some (.error .nameTooLong)) ∧
    (∀ (packet window : List Nat) (fuel offset nameSize bytesConsumed : Nat)
        (labels : List (List Nat)) (encounteredPointer : Bool) (byte : Nat),
      (if encounteredPointer then packet else window).get? offset = some byte →
      byteIsPointer byte = false → byte ≠ 0 →
      ¬offset + 1 + byte > (if encounteredPointer then packet else window).length →
      labelOk ((window.drop (offset + 1)).take byte) = true →
      nameSize + ((window.drop (offset + 1)).take byte).length > 255 →
      cursorNameLoop packet window (fuel + 1) offset nameSize bytesConsumed
        labels encounteredPointer = some (.error .nameTooLong)) := by
  constructor
  · intro buf fuel offset nameSize labels length hb hz hov hlb hsz
    simp only [nameDecodeLoop, hb]
    rw [if_neg hz, if_neg hov, hlb, if_pos rfl, if_pos hsz]
  · intro packet window fuel offset nameSize bytesConsumed labels
      encounteredPointer byte hb hp hz hov hlb hsz
    have hp' : ¬byteIsPointer byte = true := by rw [hp]; simp
    simp only [cursorNameLoop, hb]
    rw [if_neg hp', if_neg hz, if_neg hov, hlb, if_pos rfl, if_pos hsz]

theorem cursorNameLoop_isSome_true (packet window : List Nat) :
    ∀ fuel offset nameSize bytesConsumed labels,
      packet.length + 1 ≤ fuel + offset → 1 ≤ fuel →
      (cursorNameLoop packet window fuel offset nameSize bytesConsumed labels
        true).isSome = true := by
  intro fuel
  induction fuel with
  | zero => intro _ _ _ _ _ h2; exact absurd h2 (by omega)
  | succ n ih =>
    intro offset nameSize bytesConsumed labels hlen _
    rw [cursorNameLoop]
    simp only [reduceIte]
    split
    · rfl
    next byte hb =>
      split
      · rfl
      next hp =>
        split
        · rfl
        next hz =>
          split
          · rfl
          next hov =>
            split
            next hlb =>
              split
              · rfl
              next hsz => exact ih _ _ _ _ (by omega) (by omega)
            next hlb => rfl

theorem cursorNameLoop_isSome_false (packet window : List Nat) :
    ∀ fuel offset nameSize bytesConsumed labels,
      (window.length - offset) + packet.length + 3 ≤ fuel →
      (cursorNameLoop packet window fuel offset nameSize bytesConsumed labels
        false).isSome = true := by
  intro fuel
  induction fuel with
  | zero => intro _ _ _ _ h; exact absurd h (by omega)
  | succ n ih =>
    intro offset nameSize bytesConsumed labels hlen
    rw [cursorNameLoop]
    simp only [Bool.false_eq_true, if_false]
    split
    · rfl
    next byte hb =>
      split
      next hp =>
        split
        · rfl
        next u16 hu =>
          have hbounds : offset + 1 < window.length := by
            unfold getUint16 at hu
            cases h1 : window.get? offset with
            | none => rw [h1] at hu; cases hu
            | some hi =>
              cases h2 : window.get? (offset + 1) with
              | none => rw [h1, h2] at hu; cases hu
              | some lo => exact List.get?_eq_some.mp h2 |>.1
          exact cursorNameLoop_isSome_true packet window n _ nameSize
            (bytesConsumed + 2) labels (by omega) (by omega)
      next hp =>
        split
        · rfl
        next hz =>
          split
          · rfl
          next hov =>
            split
            next hlb =>
              split
              · rfl
              next hsz => exact ih _ _ _ _ (by omega)
            next hlb => rfl

/-- Claim C8: the packet-aware name decode loop terminates on every packet and
cursor: with the fuel the decoder supplies, the loop always reaches a definite
result (the fuel-exhaustion marker is unreachable), because at most one
pointer indirection is followed and the read offset strictly grows on every
non-pointer step. -/
theorem cursor_decode_terminates (cursor : DnsPacketCursor) :
    (cursorNameLoop cursor.uint8Array (cursorWindow cursor)
      (cursorNameFuel cursor) 0 0 0 [] false).isSome = true := by
  apply cursorNameLoop_isSome_false
  unfold cursorNameFuel
  omega

theorem decodeName_ok_raw (buf : List Nat) (nm : Name)
    (h : decodeNameFromUint8Array buf = .ok nm) : decodeNameRaw buf = .ok nm := by
  unfold decodeNameFromUint8Array at h
  cases hraw : decodeNameRaw buf with
  | error e => rw [hraw] at h; cases h
  | ok nm0 =>
    rw [hraw] at h
    simp only at h
    by_cases hv : validName nm0 = true
    · rw [if_pos hv] at h
      exact h
    · rw [if_neg hv] at h
      cases h

theorem decodeNameRaw_ok (buf : List Nat) (nm : Name)
    (h : decodeNameRaw buf = .ok nm) :
    nameDecodeLoop buf (buf.length + 1) 0 0 [] =
      some (.ok (nm.labels, nm.encodedByteLength)) := by
  unfold decodeNameRaw at h
  by_cases hlen : buf.length < 2
  · rw [if_pos hlen] at h; cases h
  · rw [if_neg hlen] at h
    cases hloop : nameDecodeLoop buf (buf.length + 1) 0 0 [] with
    | none => rw [hloop] at h; cases h
    | some r =>
      rw [hloop] at h
      cases r with
      | error e => simp [Except.map] at h
      | ok p =>
        simp only [Except.map] at h
        injection h with h
        rw [← h]

theorem nameDecodeLoop_ok (buf : List Nat) :
    ∀ fuel offset nameSize labels ls final,
      nameDecodeLoop buf fuel offset nameSize labels = some (.ok (ls, final)) →
      buf.get? final = some 0 ∧
      ∃ ns, ls = labels ++ ns ∧ final = offset + sumLens ns + ns.length := by
  intro fuel
  induction fuel with
  | zero => intro _ _ _ _ _ h; cases h
  | succ n ih =>
    intro offset nameSize labels ls final h
    rw [nameDecodeLoop] at h
    split at h
    · cases h
    next length hb =>
      split at h
      next hz =>
        injection h with h
        injection h with h
        injection h with h1 h2
        subst hz h1 h2
        exact ⟨hb, [], by simp, by simp [sumLens]⟩
      next hz =>
        split at h
        · cases h
        next hov =>
          split at h
          next hlb =>
            split at h
            · cases h
            next hsz =>
              obtain ⟨hterm, ns, hls, hfin⟩ := ih _ _ _ _ _ h
              have hlblen :
                  ((buf.drop (offset + 1)).take length).length = length := by
                rw [List.length_take, List.length_drop]
                omega
              refine ⟨hterm, (buf.drop (offset + 1)).take length :: ns, ?_, ?_⟩
              · rw [hls, List.append_assoc]
                rfl
              · rw [hfin]
                show _ = offset +
                  (((buf.drop (offset + 1)).take length).length + sumLens ns) +
                  (ns.length + 1)
                omega
          next hlb => cases h

/-- Claim C3 (amended): for every successful standalone decode, the returned
`encodedByteLength` is the offset of the zero terminator byte itself — the
literal encoding length excluding the terminator (one less than the offset of
the byte following the terminator). -/
theorem standalone_bytesconsumed (buf : List Nat) (nm : Name)
    (h : decodeNameFromUint8Array buf = .ok nm) :
    buf.get? nm.encodedByteLength = some 0 ∧
    nm.encodedByteLength = sumLens nm.labels + nm.labels.length := by
  have hloop := decodeNameRaw_ok buf nm (decodeName_ok_raw buf nm h)
  obtain ⟨hterm, ns, hls, hfin⟩ := nameDecodeLoop_ok buf _ _ _ _ _ _ hloop
  simp only [List.nil_append] at hls
  refine ⟨hterm, ?_⟩
  rw [hfin, hls]
  omega

/-- Witness for `standalone_bytesconsumed` at a one-label buffer. -/
theorem standalone_bytesconsumed_witness :
    ([1, 97, 0] : List Nat).get? (⟨[[97]], 2⟩ : Name).encodedByteLength =
        some 0 ∧
      (⟨[[97]], 2⟩ : Name).encodedByteLength =
        sumLens (⟨[[97]], 2⟩ : Name).labels + (⟨[[97]], 2⟩ : Name).labels.length :=
  standalone_bytesconsumed [1, 97, 0] ⟨[[97]], 2⟩ rfl

/-- Counterexample to claim C3 as stated: decoding `[1, 97, 0]` consumes the
whole 3-byte literal encoding, yet the reported `encodedByteLength` is 2 — the
offset of the terminator — not 3, the offset of the byte following it. -/
theorem standalone_bytesconsumed_counterexample :
    decodeNameFromUint8Array [1, 97, 0] = .ok ⟨[[97]], 2⟩ ∧
    ([1, 97, 0] : List Nat).get? 2 = some 0 ∧
    (⟨[[97]], 2⟩ : Name).encodedByteLength ≠ 2 + 1 :=
  ⟨rfl, rfl, by decide⟩

theorem sumLens_cons (l : List Nat) (ls : List (List Nat)) :
    sumLens (l :: ls) = l.length + sumLens ls := rfl

theorem nameWire_length (ls : List (List Nat)) :
    (nameWire ls).length = sumLens ls + ls.length + 1 := by
  induction ls with
  | nil => rfl
  | cons l ls ih =>
    show ((l.length :: l) ++ nameWire ls).length = _
    rw [List.length_append, List.length_cons, ih, sumLens_cons,
      List.length_cons]
    omega

theorem encodeSizeLoop_ok :
    ∀ (ls : List (List Nat)) (init : Nat),
      (∀ l ∈ ls, labelOk l = true) → init + sumLens ls ≤ 255 →
      encodeSizeLoop ls init = .ok (init + sumLens ls) := by
  intro ls
  induction ls with
  | nil =>
    intro init _ _
    show Except.ok init = _
    rw [show sumLens [] = 0 from rfl]
    rfl
  | cons l ls ih =>
    intro init hall hsz
    rw [sumLens_cons] at hsz
    have hl : labelOk l = true := hall l (by simp)
    have hrest : ∀ x ∈ ls, labelOk x = true := fun x hx =>
      hall x (List.mem_cons_of_mem _ hx)
    unfold encodeSizeLoop
    rw [if_pos hl, if_neg (show ¬init + l.length > 255 by omega)]
    rw [ih (init + l.length) hrest (by omega), sumLens_cons]
    rw [show init + l.length + sumLens ls = init + (l.length + sumLens ls)
      by omega]

theorem nameDecodeLoop_wire (buf : List Nat) :
    ∀ (ls : List (List Nat)) (offset nameSize : Nat) (labels : List (List Nat))
      (fuel : Nat),
      (∀ l ∈ ls, labelOk l = true) →
      nameSize + sumLens ls ≤ 255 →
      buf.drop offset = nameWire ls →
      sumLens ls + ls.length + 1 ≤ fuel →
      nameDecodeLoop buf fuel offset nameSize labels =
        some (.ok (labels ++ ls, offset + sumLens ls + ls.length)) := by
  intro ls
  induction ls with
  | nil =>
    intro offset nameSize labels fuel _ _ hdrop hfuel
    cases fuel with
    | zero => exact absurd hfuel (by rw [show sumLens [] = 0 from rfl]; omega)
    | succ n =>
      have hget : buf.get? offset = some 0 := by
        have h0 : (buf.drop offset).get? 0 = some 0 := by rw [hdrop]; rfl
        rw [List.get?_drop] at h0
        simpa using h0
      simp only [nameDecodeLoop, hget, if_true]
      simp [sumLens]
  | cons l ls ih =>
    intro offset nameSize labels fuel hall hsz hdrop hfuel
    rw [sumLens_cons] at hsz hfuel
    rw [List.length_cons] at hfuel
    have hl : labelOk l = true := hall l (by simp)
    obtain ⟨hl1, hl63⟩ := labelOk_length hl
    have hrest : ∀ x ∈ ls, labelOk x = true := fun x hx =>
      hall x (List.mem_cons_of_mem _ hx)
    have hoff_le : offset ≤ buf.length := by
      by_contra hc
      push_neg at hc
      rw [List.drop_eq_nil_of_le (le_of_lt hc)] at hdrop
      exact absurd hdrop.symm (by simp [nameWire])
    have hbuflen : buf.length = offset + l.length + sumLens ls +
        ls.length + 2 := by
      have h1 : (buf.drop offset).length = (nameWire (l :: ls)).length := by
        rw [hdrop]
      rw [List.length_drop, nameWire_length, sumLens_cons, List.length_cons]
        at h1
      omega
    have hget : buf.get? offset = some l.length := by
      have h0 : (buf.drop offset).get? 0 = some l.length := by rw [hdrop]; rfl
      rw [List.get?_drop] at h0
      simpa using h0
    have hdrop1 : buf.drop (offset + 1) = l ++ nameWire ls := by
      rw [← List.drop_drop 1 offset buf, hdrop]
      rfl
    have hlb : (buf.drop (offset + 1)).take l.length = l := by
      rw [hdrop1]
      exact List.take_left l (nameWire ls)
    cases fuel with
    | zero => exact absurd hfuel (by omega)
    | succ n =>
      have hdrop2 : buf.drop (offset + l.length + 1) = nameWire ls := by
        rw [show offset + l.length + 1 = offset + 1 + l.length by omega]
        rw [← List.drop_drop l.length (offset + 1) buf, hdrop1]
        exact List.drop_left l (nameWire ls)
      simp only [nameDecodeLoop, hget]
      rw [if_neg (show ¬l.length = 0 by omega),
        if_neg (show ¬offset + 1 + l.length > buf.length by omega),
        hlb, hl, if_pos rfl,
        if_neg (show ¬nameSize + l.length > 255 by omega)]
      rw [ih (offset + l.length + 1) (nameSize + l.length) (labels ++ [l]) n
        hrest (by omega) hdrop2 (by omega)]
      rw [show (labels ++ [l]) ++ ls = labels ++ l :: ls by simp]
      rw [show offset + l.length + 1 + sumLens ls + ls.length =
        offset + sumLens (l :: ls) + (l :: ls).length by
          rw [sumLens_cons, List.length_cons]; omega]

/-- Claim C4 (amended): for every valid `Name`, encoding emits the literal
wire form and decoding it back returns the same label list; the decoded
`encodedByteLength` is recomputed as the terminator's offset
(`sumLens labels + labels.length`), so the round-trip restores the whole
`Name` exactly when its `encodedByteLength` field already holds that value. -/
theorem encode_decode_roundtrip (nm : Name) (hv : validName nm = true) :
    encodeNameFromUint8Array nm = .ok (nameWire nm.labels) ∧
    decodeNameFromUint8Array (nameWire nm.labels) =
      .ok ⟨nm.labels, sumLens nm.labels + nm.labels.length⟩ := by
  obtain ⟨hall, hne, hsz, -, -⟩ := validName_parts hv
  have hcount1 : 1 ≤ nm.labels.length := by
    cases hls : nm.labels with
    | nil => exact absurd hls hne
    | cons _ _ => simp [hls]
  have hsum1 : 1 ≤ sumLens nm.labels := by
    cases hls : nm.labels with
    | nil => exact absurd hls hne
    | cons l ls =>
      have hlen1 := (labelOk_length (hall l (by rw [hls]; simp))).1
      rw [sumLens_cons]
      omega
  constructor
  · unfold encodeNameFromUint8Array
    rw [if_pos hv, if_neg (show ¬nm.labels.length = 0 by omega)]
    rw [encodeSizeLoop_ok nm.labels (nm.labels.length + 1) hall (by omega)]
  · have hwl : (nameWire nm.labels).length =
        sumLens nm.labels + nm.labels.length + 1 := nameWire_length _
    have hv2 : validName ⟨nm.labels, sumLens nm.labels + nm.labels.length⟩ =
        true := by
      unfold validName nameLabelsOk
      simp only [Bool.and_eq_true, List.all_eq_true, decide_eq_true_eq,
        Bool.not_eq_true', beq_eq_false_iff_ne, ne_eq]
      exact ⟨⟨hall, by omega, by omega⟩, by omega, by omega⟩
    unfold decodeNameFromUint8Array decodeNameRaw
    rw [if_neg (show ¬(nameWire nm.labels).length < 2 by omega)]
    rw [nameDecodeLoop_wire (nameWire nm.labels) nm.labels 0 0 []
      ((nameWire nm.labels).length + 1) hall (by omega) (by rfl) (by omega)]
    simp only [List.nil_append, Except.map, Nat.zero_add]
    rw [if_pos hv2]

/-- Witness for `encode_decode_roundtrip` at a concrete valid `Name`. -/
theorem encode_decode_roundtrip_witness :
    encodeNameFromUint8Array ⟨[[97]], 7⟩ =
        .ok (nameWire (Name.mk [[97]] 7).labels) ∧
      decodeNameFromUint8Array (nameWire (Name.mk [[97]] 7).labels) =
        .ok ⟨(Name.mk [[97]] 7).labels,
          sumLens (Name.mk [[97]] 7).labels +
            (Name.mk [[97]] 7).labels.length⟩ :=
  encode_decode_roundtrip ⟨[[97]], 7⟩ rfl

/-- Counterexample to claim C4 as stated: the valid `Name` with labels
`[[97]]` and `encodedByteLength` 7 (its encoded form is the 3-byte
`[1, 97, 0]`, within 1–255 bytes) does not round-trip including its
`encodedByteLength` field: decoding returns 2 in that field, not 7. -/
theorem roundtrip_counterexample :
    validName ⟨[[97]], 7⟩ = true ∧
    encodeNameFromUint8Array ⟨[[97]], 7⟩ = .ok [1, 97, 0] ∧
    decodeNameFromUint8Array [1, 97, 0] = .ok ⟨[[97]], 2⟩ ∧
    (⟨[[97]], 2⟩ : Name) ≠ ⟨[[97]], 7⟩ :=
  ⟨rfl, rfl, rfl, by decide⟩

/-- Claim C1, evaluated at a failing input: the 7-byte packet
`[3, 102, 111, 111, 0, 192, 0]` holds a valid literal name (`foo`) at offset
0 — the standalone decoder returns its labels — and the two bytes at cursor
offset 5 are the single compression pointer `C0 00` (top two bits 11, 14-bit
offset 0); yet the packet-aware decoder fails with `InvalidLabel` instead of
resolving the pointer to the same label sequence, because after the jump it
still slices label bytes out of the 255-byte window that starts at the
cursor (`name.ts` line 390) while reading length bytes from the full packet
— the windowing defect the source's own comment at lines 308–311 records. -/
theorem pointer_window_bug :
    decodeNameFromUint8Array [3, 102, 111, 111, 0, 192, 0] =
        .ok ⟨[[102, 111, 111]], 4⟩ ∧
      decodeNameFromDnsPacketCursor ⟨[3, 102, 111, 111, 0, 192, 0], 5⟩ =
        .error .invalidLabel :=
  ⟨rfl, rfl⟩

/-- Counterexample to claim C2 as stated: in the 19-byte packet holding one
question whose decoder reports `encodedByteLength` 6 at offset 12, the
framer's question loop leaves the cursor at offset 19 = 12 + 6 + 1 — one byte
beyond the reported consumed length. -/
theorem framer_advance_counterexample :
    decodeQuestionFromDnsPacketCursor
        ⟨[0, 0, 0, 0, 0, 1, 0, 0, 0, 0, 0, 0, 1, 97, 0, 0, 1, 0, 1], 12⟩ =
      .ok (⟨⟨[[97]], 2⟩, 1, 1⟩, 6) ∧
    decodeQuestions [0, 0, 0, 0, 0, 1, 0, 0, 0, 0, 0, 0, 1, 97, 0, 0, 1, 0, 1]
        1 12 = .ok ([⟨⟨[[97]], 2⟩, 1, 1⟩], 19) ∧
    (19 : Nat) ≠ 12 + 6 :=
  ⟨rfl, rfl, by decide⟩

/-- Claim C2 (amended): after each successfully decoded question or resource
record, the framer advances the shared cursor offset by the element's
reported `encodedByteLength` plus one (the element decoders' reported length
stops at the name's terminator byte; the framer's extra byte accounts for
it), and continues the loop from there. -/
theorem framer_advances_reported_plus_one :
    (∀ (packet : List Nat) (n offset : Nat) (q : Question) (e : Nat)
        (qs : List Question) (final : Nat),
      decodeQuestionFromDnsPacketCursor ⟨packet, offset⟩ = .ok (q, e) →
      decodeQuestions packet n (offset + e + 1) = .ok (qs, final) →
      decodeQuestions packet (n + 1) offset = .ok (q :: qs, final)) ∧
    (∀ (packet : List Nat) (n offset : Nat) (rr : ResourceRecord) (e : Nat)
        (rrs : List ResourceRecord) (final : Nat),
      decodeResourceRecordFromDnsPacketCursor ⟨packet, offset⟩ = .ok (rr, e) →
      decodeResourceRecords packet n (offset + e + 1) = .ok (rrs, final) →
      decodeResourceRecords packet (n + 1) offset = .ok (rr :: rrs, final)) := by
  constructor
  · intro packet n offset q e qs final hq hqs
    simp only [decodeQuestions, hq, hqs]
  · intro packet n offset rr e rrs final hr hrs
    simp only [decodeResourceRecords, hr, hrs]

/-- Witness for `framer_advances_reported_plus_one` on a one-question
packet. -/
theorem framer_advances_reported_plus_one_witness :
    decodeQuestions [0, 0, 0, 0, 0, 1, 0, 0, 0, 0, 0, 0, 1, 97, 0, 0, 1, 0, 1]
        1 12 = .ok ([⟨⟨[[97]], 2⟩, 1, 1⟩], 19) :=
  framer_advances_reported_plus_one.1
    [0, 0, 0, 0, 0, 1, 0, 0, 0, 0, 0, 0, 1, 97, 0, 0, 1, 0, 1] 0 12
    ⟨⟨[[97]], 2⟩, 1, 1⟩ 6 [] 19 rfl rfl

/-- Witness for `nametoolong_fail_fast`: a six-byte label pushes a running
size of 250 over the 255 ceiling in both loops. -/
theorem nametoolong_fail_fast_witness :
    nameDecodeLoop [6, 97, 97, 97, 97, 97, 97] 1 0 250 [] =
        some (.error .nameTooLong) ∧
      cursorNameLoop [] [6, 97, 97, 97, 97, 97, 97] 1 0 250 0 [] false =
        some (.error .nameTooLong) :=
  ⟨nametoolong_fail_fast.1 [6, 97, 97, 97, 97, 97, 97] 0 0 250 [] 6 rfl
      (by decide) (by decide) (by decide) (by decide),
    nametoolong_fail_fast.2 [] [6, 97, 97, 97, 97, 97, 97] 0 0 250 0 [] false 6
      rfl rfl (by decide) (by decide) (by decide) (by decide)⟩
